import Mathlib

/-!
Shallow embedding of the bumpalo bump-allocation arena (`src/lib.rs`) for the
64-bit target.  Pointers and `usize` values are modelled as `Nat` with explicit
wrap-around modulo `2 ^ 64` where the source uses unchecked machine arithmetic,
and with `Option` where the source uses checked arithmetic.  The `prev` chain of
chunk footers is modelled as a Lean list whose head is the current chunk.
-/

namespace Bumpalo

/-- Number of values of `usize` on the 64-bit target; all pointer arithmetic in
the source is machine arithmetic modulo this constant. -/
def USIZE : Nat := 2 ^ 64

/-- Result of `mem::size_of::<ChunkFooter>()` on the 64-bit target: six words,
as asserted by the crate's own `chunk_footer_is_six_words` test. -/
def footerSize : Nat := 48

/-- Result of `mem::align_of::<ChunkFooter>()` on the 64-bit target: every field
of the footer is one word. -/
def footerAlign : Nat := 8

/-- Constant `MALLOC_OVERHEAD` from the source. -/
def MALLOC_OVERHEAD : Nat := 16

/-- Constant `DEFAULT_CHUNK_SIZE_WITH_FOOTER = (1 << 9) - MALLOC_OVERHEAD`. -/
def DEFAULT_CHUNK_SIZE_WITH_FOOTER : Nat := (1 <<< 9) - MALLOC_OVERHEAD

/-- Constant `DEFAULT_CHUNK_ALIGN = mem::align_of::<ChunkFooter>()`. -/
def DEFAULT_CHUNK_ALIGN : Nat := footerAlign

/-- Rust `core::alloc::Layout`: a size and an alignment.  Validity conditions
(the alignment is a power of two, the size does not overflow) are carried as
hypotheses of the theorems that need them. -/
structure Layout where
  size : Nat
  align : Nat
deriving Repr, DecidableEq

/-- Rust `usize::checked_sub`. -/
def checked_sub (a b : Nat) : Option Nat :=
  if b ≤ a then some (a - b) else none

/-- Rust `usize::checked_add`. -/
def checked_add (a b : Nat) : Option Nat :=
  if a + b < USIZE then some (a + b) else none

/-- Rust `usize::checked_mul`. -/
def checked_mul (a b : Nat) : Option Nat :=
  if a * b < USIZE then some (a * b) else none

/-- Unchecked (release-mode wrapping) `usize` addition. -/
def wrapping_add (a b : Nat) : Nat := (a + b) % USIZE

/-- Unchecked (release-mode wrapping) `usize` subtraction. -/
def wrapping_sub (a b : Nat) : Nat := (a + (USIZE - b % USIZE)) % USIZE

/-- The masking step `p & !(align - 1)` of the bump arithmetic: on the 64-bit
target, for `1 ≤ align ≤ 2 ^ 64`, the mask `!(align - 1)` is the number
`2 ^ 64 - align`. -/
def down_align (p align : Nat) : Nat := p &&& (USIZE - align)

/-- Function `round_up_to(n, divisor) = Some(n.checked_add(divisor - 1)? & !(divisor - 1))`. -/
def round_up_to (n divisor : Nat) : Option Nat :=
  (checked_add n (divisor - 1)).map (fun m => down_align m divisor)

/-- Struct `ChunkFooter`.  The `prev` link is not a field here: the chain is
represented positionally by the list inside `Bump`. -/
structure ChunkFooter where
  data : Nat
  layout : Layout
  ptr : Nat
  end_of_first_allocation : Option Nat
deriving Repr, DecidableEq

/-- Address of the footer itself: the footer is written at
`data + layout.size - sizeof(ChunkFooter)`, and the bump finger starts there. -/
def ChunkFooter.addr (c : ChunkFooter) : Nat :=
  c.data + c.layout.size - footerSize

/-- Struct `Bump`: the current chunk footer plus the `prev` chain.  The `prev`
field of `cur` is `rest.head?`, the `prev` field of `rest[i]` is `rest[i+1]`,
and the last element of `cur :: rest` has `prev = None`. -/
structure Bump where
  cur : ChunkFooter
  rest : List ChunkFooter
deriving Repr, DecidableEq

/-- The whole chunk chain, current chunk first. -/
def Bump.chunks (b : Bump) : List ChunkFooter := b.cur :: b.rest

/-- The global system allocator, as an oracle: given the requested layout it
returns the base address of a fresh region, or `none` for a null return. -/
def SysAlloc : Type := Layout → Option Nat

/-- `Bump::default_chunk_layout`. -/
def default_chunk_layout : Layout :=
  ⟨DEFAULT_CHUNK_SIZE_WITH_FOOTER, DEFAULT_CHUNK_ALIGN⟩

/-- The layout computation of `Bump::new_chunk` for `layouts = Some((old_size,
requested))`: doubled old size (checked), two `max`es, rounding up to the
footer alignment, and the alignment `max(footer_align, requested.align)`.
`none` models the panics of `unwrap` and `allocation_size_overflow`. -/
def new_chunk_computed_layout (old_size : Nat) (requested : Layout) : Option Layout :=
  match checked_mul old_size 2 with
  | none => none
  | some old_doubled =>
    let size_to_allocate := max old_doubled requested.size
    let size := max size_to_allocate (wrapping_add requested.size footerSize)
    match round_up_to size footerAlign with
    | none => none
    | some size => some ⟨size, max footerAlign requested.align⟩

/-- Function `Bump::new_chunk` without its `prev` argument (the caller places
the new footer in the list).  Returns `none` when the layout arithmetic panics
or the system allocator returns null (`oom`). -/
def new_chunk (sys : SysAlloc) (layouts : Option (Nat × Layout)) : Option ChunkFooter :=
  match (match layouts with
         | none => some default_chunk_layout
         | some (old_size, requested) => new_chunk_computed_layout old_size requested) with
  | none => none
  | some layout =>
    match sys layout with
    | none => none
    | some data =>
      some { data := data, layout := layout,
             ptr := data + layout.size - footerSize,
             end_of_first_allocation := none }

/-- `Bump::new`. -/
def Bump.new (sys : SysAlloc) : Option Bump :=
  (new_chunk sys none).map fun c => ⟨c, []⟩

/-- `Bump::with_capacity`. -/
def Bump.with_capacity (sys : SysAlloc) (capacity : Nat) : Option Bump :=
  (new_chunk sys (some (DEFAULT_CHUNK_SIZE_WITH_FOOTER, ⟨capacity, 1⟩))).map
    fun c => ⟨c, []⟩

/-- `Bump::try_alloc_layout_fast`.  On success it returns the aligned pointer
and the updated arena; `none` leaves the arena untouched. -/
def try_alloc_layout_fast (b : Bump) (layout : Layout) : Option (Nat × Bump) :=
  let footer := b.cur
  let initial_ptr := footer.ptr
  let start := footer.data
  match checked_sub initial_ptr layout.size with
  | none => none
  | some p =>
    let aligned_ptr := down_align p layout.align
    if start ≤ aligned_ptr then
      let footer1 :=
        if initial_ptr = footer.addr then
          let e := some (wrapping_add aligned_ptr layout.size)
          { footer with end_of_first_allocation := e }
        else footer
      some (aligned_ptr, { b with cur := { footer1 with ptr := aligned_ptr } })
    else
      none

/-- `Bump::alloc_layout_slow`: acquire a new chunk sized from the current chunk
size and the triggering layout, install it in front of the chain, and repeat
the bump arithmetic (unchecked subtraction, then the alignment mask). -/
def alloc_layout_slow (sys : SysAlloc) (b : Bump) (layout : Layout) :
    Option (Nat × Bump) :=
  let size := layout.size
  match new_chunk sys (some (b.cur.layout.size, layout)) with
  | none => none
  | some new_footer =>
    let p := down_align (wrapping_sub new_footer.ptr size) layout.align
    some (p, ⟨{ new_footer with
                end_of_first_allocation := some (wrapping_add p layout.size),
                ptr := p },
              b.cur :: b.rest⟩)

/-- `Bump::alloc_layout`: the fast path, falling back to the slow path. -/
def alloc_layout (sys : SysAlloc) (b : Bump) (layout : Layout) :
    Option (Nat × Bump) :=
  match try_alloc_layout_fast b layout with
  | some r => some r
  | none => alloc_layout_slow sys b layout

/-- `Bump::is_last_allocation`. -/
def is_last_allocation (b : Bump) (p : Nat) : Bool :=
  decide (b.cur.ptr = p)

/-- `Alloc::dealloc for &Bump`: raise the bump finger past the tail allocation,
or do nothing. -/
def dealloc (b : Bump) (p : Nat) (layout : Layout) : Bump :=
  if is_last_allocation b p then
    { b with cur := { b.cur with ptr := wrapping_add p layout.size } }
  else b

/-- Memory traffic performed by `realloc`, recorded symbolically:
`ptr::copy_nonoverlapping` and `ptr::copy` calls with source, destination and
byte count. -/
inductive MemEffect where
  | copyNonoverlapping (src dst len : Nat)
  | copyMayOverlap (src dst len : Nat)
deriving Repr, DecidableEq

/-- The final branch of `Alloc::realloc for &Bump`: a fresh allocation plus a
non-overlapping copy of the old contents. -/
def realloc_fallback (sys : SysAlloc) (b : Bump) (p old_size : Nat)
    (layout : Layout) (new_size : Nat) : Option (Nat × Bump × List MemEffect) :=
  match alloc_layout sys b ⟨new_size, layout.align⟩ with
  | some (q, b1) => some (q, b1, [MemEffect.copyNonoverlapping p q old_size])
  | none => none

/-- `Alloc::realloc for &Bump`. -/
def realloc (sys : SysAlloc) (b : Bump) (p : Nat) (layout : Layout)
    (new_size : Nat) : Option (Nat × Bump × List MemEffect) :=
  let old_size := layout.size
  if new_size ≤ old_size then
    if is_last_allocation b p && decide (new_size ≤ old_size / 2) then
      let delta := old_size - new_size
      let footer1 := { b.cur with ptr := wrapping_add b.cur.ptr delta }
      some (footer1.ptr, ⟨footer1, b.rest⟩,
            [MemEffect.copyNonoverlapping p footer1.ptr new_size])
    else
      some (p, b, [])
  else
    if is_last_allocation b p then
      match try_alloc_layout_fast b ⟨new_size - old_size, layout.align⟩ with
      | some (q, b1) => some (q, b1, [MemEffect.copyMayOverlap p q new_size])
      | none => realloc_fallback sys b p old_size layout new_size
    else
      realloc_fallback sys b p old_size layout new_size

/-- `Bump::reset`: drop every chunk but the current one, move the bump finger
back to the footer address, clear `end_of_first_allocation`. -/
def reset (b : Bump) : Bump :=
  ⟨{ b.cur with ptr := b.cur.addr, end_of_first_allocation := none }, []⟩

/-- Allocator error value (`alloc::AllocErr`). -/
inductive AllocErr where
  | allocErr
deriving Repr, DecidableEq

/-- Modelled from the spec: `Bump::try_alloc_layout` is absent from the sources
(only the crate tests reference it); per spec section 4.3 it behaves exactly as
`alloc_layout` but surfaces memory exhaustion as an allocator error to the
caller instead of aborting. -/
def try_alloc_layout (sys : SysAlloc) (b : Bump) (layout : Layout) :
    Except AllocErr (Nat × Bump) :=
  match alloc_layout sys b layout with
  | some r => Except.ok r
  | none => Except.error AllocErr.allocErr

/-- Outcome of a fatal (non-try) allocation entry point: either a pointer and
the updated arena, or the invocation of the abort hook. -/
inductive FatalOutcome where
  | ok (p : Nat) (b : Bump)
  | abortHook
deriving Repr, DecidableEq

/-- Function `oom()`: the diverging abort hook invoked by the fatal entry
points on memory exhaustion. -/
def oom : FatalOutcome := FatalOutcome.abortHook

/-- The fatal entry point `Bump::alloc_layout` seen from the caller: a pointer
on success, the abort hook (`oom`) on memory exhaustion. -/
def alloc_layout_fatal (sys : SysAlloc) (b : Bump) (layout : Layout) :
    FatalOutcome :=
  match alloc_layout sys b layout with
  | some (p, b1) => FatalOutcome.ok p b1
  | none => oom

/-- One externally visible non-constructor operation on an arena.  The system
allocator oracle used while the operation runs is part of the operation. -/
inductive Op where
  | allocOp (sys : SysAlloc) (layout : Layout)
  | deallocOp (p : Nat) (layout : Layout)
  | reallocOp (sys : SysAlloc) (p : Nat) (layout : Layout) (new_size : Nat)
  | resetOp

/-- Whether an operation is the reset operation. -/
def Op.isReset : Op → Bool
  | Op.resetOp => true
  | _ => false

/-- Apply one operation to the arena state.  A `none` from the allocation
functions models a diverging panic or abort, which happens before any state
mutation, so the state is returned unchanged. -/
def applyOp (b : Bump) : Op → Bump
  | Op.allocOp sys layout =>
    match alloc_layout sys b layout with
    | some (_, b1) => b1
    | none => b
  | Op.deallocOp p layout => dealloc b p layout
  | Op.reallocOp sys p layout new_size =>
    match realloc sys b p layout new_size with
    | some (_, b1, _) => b1
    | none => b
  | Op.resetOp => reset b

/-- Run a sequence of operations. -/
def run (b : Bump) (ops : List Op) : Bump :=
  ops.foldl applyOp b

/-- The chunk-chain invariant behind `ChunkIter::next`: every chunk that has a
predecessor (a `prev` target, i.e. every chunk except the last of the chain)
has `end_of_first_allocation` set. -/
def chain_ok : List ChunkFooter → Bool
  | c :: c2 :: rest =>
    c.end_of_first_allocation.isSome && chain_ok (c2 :: rest)
  | _ => true

/-- Run a sequence of allocation requests of the given sizes, all with
alignment 1. -/
def allocMany (sys : SysAlloc) (b : Bump) (szs : List Nat) : Option Bump :=
  match szs with
  | [] => some b
  | s :: rest =>
    match alloc_layout sys b ⟨s, 1⟩ with
    | some (_, b1) => allocMany sys b1 rest
    | none => none

/-- A concrete well-behaved system allocator used by witnesses: serves any
layout whose alignment divides `2 ^ 48` and whose size is at most `2 ^ 40`,
always from base address `2 ^ 48`. -/
def sysW : SysAlloc :=
  fun l => if 2 ^ 48 % l.align = 0 ∧ l.size ≤ 2 ^ 40 then some (2 ^ 48) else none

/-- A concrete exhausted system allocator (always returns null). -/
def sysNone : SysAlloc := fun _ => none

/-- A concrete chunk used by witnesses: region `[64, 560)`, footer at `512`,
fresh cursor. -/
def chunkW : ChunkFooter :=
  { data := 64, layout := ⟨496, 8⟩, ptr := 512, end_of_first_allocation := none }

/-- A concrete arena used by witnesses. -/
def bW : Bump := ⟨chunkW, []⟩

/-- A concrete arena whose chunk starts at the unaligned base `8` with cursor
`13`: five bytes are free in front of the cursor. -/
def bC7 : Bump :=
  ⟨{ data := 8, layout := ⟨496, 8⟩, ptr := 13, end_of_first_allocation := some 456 }, []⟩

/-- A concrete arena whose cursor `100` is the tail allocation. -/
def bC6 : Bump :=
  ⟨{ data := 64, layout := ⟨496, 8⟩, ptr := 100, end_of_first_allocation := some 512 }, []⟩

/-- The chunk footer written back by a successful fast path: the bump finger
moves to the aligned pointer, and `end_of_first_allocation` is additionally set
when the chunk was empty (the finger sat on the footer itself). -/
def fast_updated_footer (c : ChunkFooter) (aligned : Nat) (l : Layout) : ChunkFooter :=
  { (if c.ptr = c.addr then { c with end_of_first_allocation := some (wrapping_add aligned l.size) } else c) with ptr := aligned }

/-- The concrete chunk produced by the slow path on `bW` for layout `(100, 8)`
under `sysW` (base `2 ^ 48`, chunk size `992`, cursor `2 ^ 48 + 840`). -/
def chunkSlowW : ChunkFooter :=
  { data := 281474976710656, layout := ⟨992, 8⟩, ptr := 281474976711496,
    end_of_first_allocation := some 281474976711596 }

/-- The concrete arena after that slow-path allocation. -/
def bSlowW : Bump := ⟨chunkSlowW, [chunkW]⟩

/-- The concrete chunk produced by `Bump::with_capacity sysW 100`. -/
def chunkCapW : ChunkFooter :=
  { data := 281474976710656, layout := ⟨992, 8⟩, ptr := 281474976711600,
    end_of_first_allocation := none }

/-- The concrete arena produced by `Bump::with_capacity sysW 100`. -/
def bCapW : Bump := ⟨chunkCapW, []⟩

/-- The concrete arena produced by `Bump::new sysW` (default chunk layout,
base `2 ^ 48`, footer at `2 ^ 48 + 448`). -/
def bNewW : Bump :=
  ⟨{ data := 281474976710656, layout := ⟨496, 8⟩, ptr := 281474976711104,
     end_of_first_allocation := none }, []⟩

/-! Arithmetic facts about the 64-bit masking and wrapping primitives. -/

lemma usize_mask_eq (k : Nat) (hk : k ≤ 64) :
    USIZE - 2 ^ k = 2 ^ k * (2 ^ (64 - k) - 1) := by
  have h1 : 2 ^ k * 2 ^ (64 - k) = USIZE := by
    rw [← pow_add]
    unfold USIZE
    congr 1
    omega
  rw [Nat.mul_sub_one, h1]

lemma down_align_two_pow (k n : Nat) (hk : k ≤ 64) (hn : n < USIZE) :
    down_align n (2 ^ k) = 2 ^ k * (n / 2 ^ k) := by
  unfold down_align
  rw [usize_mask_eq k hk]
  apply Nat.eq_of_testBit_eq
  intro i
  rw [Nat.testBit_and, Nat.testBit_mul_pow_two, Nat.testBit_mul_pow_two,
      Nat.testBit_two_pow_sub_one]
  have hdiv : n / 2 ^ k = n >>> k := (Nat.shiftRight_eq_div_pow n k).symm
  rw [hdiv, Nat.testBit_shiftRight]
  by_cases hik : k ≤ i
  · by_cases hi64 : i < 64
    · have h1 : i - k < 64 - k := by omega
      have h2 : k + (i - k) = i := by omega
      simp [hik, h1, h2, ge_iff_le]
    · have h1 : ¬ (i - k < 64 - k) := by omega
      have h2 : n.testBit (k + (i - k)) = false := by
        apply Nat.testBit_lt_two_pow
        have hn2 : n < 2 ^ 64 := hn
        exact lt_of_lt_of_le hn2 (Nat.pow_le_pow_right (by omega) (by omega))
      simp [h1, h2]
  · simp [hik, ge_iff_le]

lemma down_align_le (p a : Nat) : down_align p a ≤ p := Nat.and_le_left

lemma down_align_sub_mod (k n : Nat) (hk : k ≤ 64) (hn : n < USIZE) :
    down_align n (2 ^ k) = n - n % 2 ^ k := by
  rw [down_align_two_pow k n hk hn]
  have := Nat.div_add_mod n (2 ^ k)
  omega

lemma down_align_mod_self (k n : Nat) (hk : k ≤ 64) (hn : n < USIZE) :
    down_align n (2 ^ k) % 2 ^ k = 0 := by
  rw [down_align_two_pow k n hk hn]
  exact Nat.mul_mod_right _ _

lemma le_down_align (k n base : Nat) (hk : k ≤ 64) (hn : n < USIZE)
    (hb : base % 2 ^ k = 0) (hbn : base ≤ n) : base ≤ down_align n (2 ^ k) := by
  rw [down_align_two_pow k n hk hn]
  have h1 : 2 ^ k * (base / 2 ^ k) = base :=
    Nat.mul_div_cancel' (Nat.dvd_of_mod_eq_zero hb)
  calc base = 2 ^ k * (base / 2 ^ k) := h1.symm
    _ ≤ 2 ^ k * (n / 2 ^ k) :=
        Nat.mul_le_mul (Nat.le_refl _) (Nat.div_le_div_right hbn)

lemma down_align_one (n : Nat) (hn : n < USIZE) : down_align n 1 = n := by
  have h : down_align n (2 ^ 0) = n - n % 2 ^ 0 := down_align_sub_mod 0 n (by omega) hn
  norm_num at h
  omega

lemma wrapping_add_eq (a b : Nat) (h : a + b < USIZE) : wrapping_add a b = a + b :=
  Nat.mod_eq_of_lt h

lemma wrapping_sub_eq (a b : Nat) (hba : b ≤ a) (ha : a < USIZE) :
    wrapping_sub a b = a - b := by
  unfold wrapping_sub
  have hb : b % USIZE = b := Nat.mod_eq_of_lt (lt_of_le_of_lt hba ha)
  rw [hb]
  have husize : 0 < USIZE := by unfold USIZE; positivity
  have h1 : a + (USIZE - b) = USIZE + (a - b) := by omega
  rw [h1, Nat.add_mod_left]
  exact Nat.mod_eq_of_lt (by omega)

lemma round_up_to_footerAlign_spec (n m : Nat)
    (h : round_up_to n footerAlign = some m) :
    n ≤ m ∧ m < USIZE ∧ m % footerAlign = 0 := by
  have h8 : (footerAlign : Nat) = 2 ^ 3 := by norm_num [footerAlign]
  rw [h8] at h ⊢
  unfold round_up_to checked_add at h
  by_cases hov : n + (2 ^ 3 - 1) < USIZE
  · rw [if_pos hov, Option.map_some'] at h
    injection h with hm
    have hsub := down_align_sub_mod 3 (n + (2 ^ 3 - 1)) (by omega) hov
    have hmod := down_align_mod_self 3 (n + (2 ^ 3 - 1)) (by omega) hov
    have hrem : (n + (2 ^ 3 - 1)) % 2 ^ 3 < 2 ^ 3 := Nat.mod_lt _ (by positivity)
    refine ⟨?_, ?_, ?_⟩
    · rw [← hm, hsub]
      omega
    · rw [← hm, hsub]
      omega
    · rw [← hm]
      exact hmod
  · rw [if_neg hov] at h
    simp at h

/-! Structural facts about the allocation paths. -/

lemma checked_sub_some (a b c : Nat) (h : checked_sub a b = some c) :
    b ≤ a ∧ c = a - b := by
  unfold checked_sub at h
  split at h
  · injection h with h
    exact ⟨by assumption, h.symm⟩
  · cases h

lemma fast_succ (b : Bump) (l : Layout) (p1 : Nat)
    (hp1 : checked_sub b.cur.ptr l.size = some p1)
    (hge : b.cur.data ≤ down_align p1 l.align) :
    try_alloc_layout_fast b l =
      some (down_align p1 l.align,
        ⟨fast_updated_footer b.cur (down_align p1 l.align) l, b.rest⟩) := by
  simp only [try_alloc_layout_fast, hp1, fast_updated_footer]
  rw [if_pos hge]

lemma fast_none_of_sub (b : Bump) (l : Layout)
    (h : checked_sub b.cur.ptr l.size = none) :
    try_alloc_layout_fast b l = none := by
  simp only [try_alloc_layout_fast, h]

lemma fast_none_of_align (b : Bump) (l : Layout) (p1 : Nat)
    (hp1 : checked_sub b.cur.ptr l.size = some p1)
    (hlt : down_align p1 l.align < b.cur.data) :
    try_alloc_layout_fast b l = none := by
  simp only [try_alloc_layout_fast, hp1]
  rw [if_neg (by omega)]

lemma alloc_layout_eq_fast (sys : SysAlloc) (b : Bump) (l : Layout)
    (r : Nat × Bump) (h : try_alloc_layout_fast b l = some r) :
    alloc_layout sys b l = some r := by
  unfold alloc_layout
  rw [h]

lemma alloc_layout_eq_slow (sys : SysAlloc) (b : Bump) (l : Layout)
    (h : try_alloc_layout_fast b l = none) :
    alloc_layout sys b l = alloc_layout_slow sys b l := by
  unfold alloc_layout
  rw [h]

lemma fast_shape (b : Bump) (l : Layout) (q : Nat) (b1 : Bump)
    (h : try_alloc_layout_fast b l = some (q, b1)) :
    b1.rest = b.rest ∧ b1.cur.ptr = q ∧ q ≤ b.cur.ptr ∧
    b1.cur.data = b.cur.data ∧ b1.cur.layout = b.cur.layout ∧
    (b1.cur.end_of_first_allocation = b.cur.end_of_first_allocation ∨
      (b1.cur.end_of_first_allocation).isSome = true) := by
  cases hcs : checked_sub b.cur.ptr l.size with
  | none =>
    rw [fast_none_of_sub b l hcs] at h
    cases h
  | some p1 =>
    by_cases hge : b.cur.data ≤ down_align p1 l.align
    · rw [fast_succ b l p1 hcs hge] at h
      rw [Option.some.injEq, Prod.mk.injEq] at h
      obtain ⟨hq, hb1⟩ := h
      obtain ⟨hsub, hval⟩ := checked_sub_some _ _ _ hcs
      have hle : down_align p1 l.align ≤ b.cur.ptr := by
        have h2 : p1 ≤ b.cur.ptr := by omega
        exact le_trans (down_align_le _ _) h2
      subst hq
      subst hb1
      by_cases hfresh : b.cur.ptr = b.cur.addr
      · simp [hfresh, fast_updated_footer]
        rw [← hfresh]
        exact hle
      · simp [hfresh, hle, fast_updated_footer]
    · rw [fast_none_of_align b l p1 hcs (by omega)] at h
      cases h

lemma slow_shape (sys : SysAlloc) (b : Bump) (l : Layout) (q : Nat) (b1 : Bump)
    (h : alloc_layout_slow sys b l = some (q, b1)) :
    b1.rest = b.cur :: b.rest ∧ b1.cur.ptr = q ∧
    (b1.cur.end_of_first_allocation).isSome = true := by
  unfold alloc_layout_slow at h
  cases hnc : new_chunk sys (some (b.cur.layout.size, l)) with
  | none =>
    rw [hnc] at h
    cases h
  | some c =>
    rw [hnc] at h
    rw [Option.some.injEq, Prod.mk.injEq] at h
    obtain ⟨hq, hb1⟩ := h
    subst hq
    subst hb1
    simp

lemma alloc_shape (sys : SysAlloc) (b : Bump) (l : Layout) (q : Nat) (b1 : Bump)
    (h : alloc_layout sys b l = some (q, b1)) :
    (b1.rest = b.rest ∧ b1.cur.ptr ≤ b.cur.ptr ∧
      (b1.cur.end_of_first_allocation = b.cur.end_of_first_allocation ∨
        (b1.cur.end_of_first_allocation).isSome = true)) ∨
    (b1.rest = b.cur :: b.rest ∧ (b1.cur.end_of_first_allocation).isSome = true) := by
  unfold alloc_layout at h
  cases hf : try_alloc_layout_fast b l with
  | some r =>
    rw [hf] at h
    injection h with h
    rw [h] at hf
    obtain ⟨h1, h2, h3, _, _, h4⟩ := fast_shape b l q b1 hf
    exact Or.inl ⟨h1, by omega, h4⟩
  | none =>
    rw [hf] at h
    obtain ⟨h1, _, h3⟩ := slow_shape sys b l q b1 h
    exact Or.inr ⟨h1, h3⟩

lemma fast_updated_footer_ptr (c : ChunkFooter) (a : Nat) (l : Layout) :
    (fast_updated_footer c a l).ptr = a := rfl

lemma fast_updated_footer_data (c : ChunkFooter) (a : Nat) (l : Layout) :
    (fast_updated_footer c a l).data = c.data := by
  unfold fast_updated_footer
  split <;> rfl

lemma fast_updated_footer_layout (c : ChunkFooter) (a : Nat) (l : Layout) :
    (fast_updated_footer c a l).layout = c.layout := by
  unfold fast_updated_footer
  split <;> rfl

/-- C1: `alloc_layout` first attempts the inlined fast path: with `p0` the
current chunk cursor and `base` the chunk low address, it computes
`p1 = p0 - size` with an underflow check, then `p2 = p1 AND NOT (align - 1)`;
if `p2 ≥ base` it commits the current chunk cursor to `p2` and returns `p2`,
and otherwise it falls through to the slow path leaving the chunk cursor
unchanged (the slow path receives the untouched state). -/
theorem fast_path_spec_C1 (sys : SysAlloc) (b : Bump) (layout : Layout) :
    (∀ p1, checked_sub b.cur.ptr layout.size = some p1 →
      ((b.cur.data ≤ down_align p1 layout.align →
        ∃ b1, alloc_layout sys b layout = some (down_align p1 layout.align, b1) ∧
          b1.cur.ptr = down_align p1 layout.align ∧
          b1.cur.data = b.cur.data ∧ b1.cur.layout = b.cur.layout ∧
          b1.rest = b.rest) ∧
      (down_align p1 layout.align < b.cur.data →
        try_alloc_layout_fast b layout = none ∧
        alloc_layout sys b layout = alloc_layout_slow sys b layout))) ∧
    (checked_sub b.cur.ptr layout.size = none →
      try_alloc_layout_fast b layout = none ∧
      alloc_layout sys b layout = alloc_layout_slow sys b layout) := by
  constructor
  · intro p1 hp1
    constructor
    · intro hge
      have hfs := fast_succ b layout p1 hp1 hge
      exact ⟨_, alloc_layout_eq_fast sys b layout _ hfs,
        fast_updated_footer_ptr _ _ _, fast_updated_footer_data _ _ _,
        fast_updated_footer_layout _ _ _, rfl⟩
    · intro hlt
      have hnone := fast_none_of_align b layout p1 hp1 hlt
      exact ⟨hnone, alloc_layout_eq_slow sys b layout hnone⟩
  · intro h
    have hnone := fast_none_of_sub b layout h
    exact ⟨hnone, alloc_layout_eq_slow sys b layout hnone⟩

/-- Witness for C1: a concrete 8-byte aligned request on a concrete arena. -/
theorem fast_path_spec_C1_witness :
    ∃ b1, alloc_layout sysNone bW ⟨8, 8⟩ = some (down_align 504 8, b1) ∧
      b1.cur.ptr = down_align 504 8 ∧ b1.cur.data = bW.cur.data ∧
      b1.cur.layout = bW.cur.layout ∧ b1.rest = bW.rest :=
  ((fast_path_spec_C1 sysNone bW ⟨8, 8⟩).1 504 (by decide)).1 (by decide)

lemma new_chunk_computed_eq (P : Nat) (L : Layout)
    (h : L.size + footerSize < USIZE) :
    new_chunk_computed_layout P L =
      (round_up_to (max (2 * P) (L.size + footerSize)) footerAlign).map
        (fun s => ⟨s, max footerAlign L.align⟩) := by
  have hwrap : wrapping_add L.size footerSize = L.size + footerSize :=
    wrapping_add_eq _ _ h
  unfold new_chunk_computed_layout checked_mul
  by_cases hov : P * 2 < USIZE
  · rw [if_pos hov]
    simp only [hwrap]
    have hmax : max (max (P * 2) L.size) (L.size + footerSize)
        = max (2 * P) (L.size + footerSize) := by
      have hf : 0 < footerSize := by norm_num [footerSize]
      omega
    rw [hmax]
    cases hr : round_up_to (max (2 * P) (L.size + footerSize)) footerAlign <;>
      simp [hr]
  · rw [if_neg hov]
    unfold round_up_to checked_add
    rw [if_neg (by omega)]
    simp

/-- C2: whenever the slow path acquires a new chunk with previous chunk size
`P` and triggering layout `L`, the size requested from the system allocator
equals `max (2·P) (L.size + sizeof footer)` rounded up to the footer alignment
and the requested alignment equals `max footer_align L.align`. -/
theorem new_chunk_request_C2 (P : Nat) (L : Layout)
    (h : L.size + footerSize < USIZE) :
    new_chunk_computed_layout P L =
      (round_up_to (max (2 * P) (L.size + footerSize)) footerAlign).map
        (fun s => ⟨s, max footerAlign L.align⟩) ∧
    ∀ (sys : SysAlloc) (b : Bump) (q : Nat) (b1 : Bump),
      b.cur.layout.size = P → alloc_layout_slow sys b L = some (q, b1) →
      round_up_to (max (2 * P) (L.size + footerSize)) footerAlign =
        some b1.cur.layout.size ∧
      b1.cur.layout.align = max footerAlign L.align := by
  refine ⟨new_chunk_computed_eq P L h, ?_⟩
  intro sys b q b1 hP hslow
  unfold alloc_layout_slow at hslow
  cases hnc : new_chunk sys (some (b.cur.layout.size, L)) with
  | none =>
    rw [hnc] at hslow
    cases hslow
  | some c =>
    rw [hnc] at hslow
    rw [Option.some.injEq, Prod.mk.injEq] at hslow
    obtain ⟨hq, hb1⟩ := hslow
    subst hb1
    simp only [new_chunk] at hnc
    cases hcl : new_chunk_computed_layout b.cur.layout.size L with
    | none =>
      rw [hcl] at hnc
      cases hnc
    | some cl =>
      rw [hcl] at hnc
      simp only [] at hnc
      cases hsys : sys cl with
      | none =>
        rw [hsys] at hnc
        cases hnc
      | some data =>
        rw [hsys] at hnc
        injection hnc with hnc
        rw [hP] at hcl
        rw [new_chunk_computed_eq P L h] at hcl
        cases hr : round_up_to (max (2 * P) (L.size + footerSize)) footerAlign with
        | none =>
          rw [hr] at hcl
          cases hcl
        | some s =>
          rw [hr, Option.map_some'] at hcl
          injection hcl with hcl
          have hlay : c.layout = cl := by rw [← hnc]
          have hcur : (⟨{ c with end_of_first_allocation := some (wrapping_add q L.size), ptr := q }, b.cur :: b.rest⟩ : Bump).cur.layout = c.layout := rfl
          rw [hcur, hlay, ← hcl]
          exact ⟨rfl, rfl⟩

/-- Witness for C2 at previous chunk size 496 and triggering layout (100, 8). -/
theorem new_chunk_request_C2_witness :
    (100 + footerSize < USIZE) ∧
    new_chunk_computed_layout 496 ⟨100, 8⟩ =
      (round_up_to (max (2 * 496) (100 + footerSize)) footerAlign).map
        (fun s => ⟨s, max footerAlign 8⟩) :=
  ⟨by decide, (new_chunk_request_C2 496 ⟨100, 8⟩ (by decide)).1⟩

lemma sysW_good :
    ∀ l a, sysW l = some a → 0 < a ∧ a % l.align = 0 ∧ a + l.size ≤ USIZE := by
  intro l a h
  unfold sysW at h
  by_cases hc : 2 ^ 48 % l.align = 0 ∧ l.size ≤ 2 ^ 40
  · rw [if_pos hc] at h
    injection h with h
    subst h
    obtain ⟨h1, h2⟩ := hc
    refine ⟨by positivity, h1, ?_⟩
    have hb : (2 : Nat) ^ 48 + 2 ^ 40 ≤ 2 ^ 64 := by norm_num
    unfold USIZE
    omega
  · rw [if_neg hc] at h
    cases h

lemma two_pow_dvd_max_footerAlign (k : Nat) : 2 ^ k ∣ max footerAlign (2 ^ k) := by
  have h8 : (footerAlign : Nat) = 2 ^ 3 := by norm_num [footerAlign]
  rw [h8]
  by_cases h3 : k ≤ 3
  · have hle : (2 : Nat) ^ k ≤ 2 ^ 3 := Nat.pow_le_pow_right (by omega) h3
    rw [Nat.max_eq_left hle]
    exact pow_dvd_pow 2 h3
  · have hle : (2 : Nat) ^ 3 ≤ 2 ^ k := Nat.pow_le_pow_right (by omega) (by omega)
    rw [Nat.max_eq_right hle]

lemma slow_decomp (sys : SysAlloc) (b : Bump) (L : Layout) (q : Nat) (b1 : Bump)
    (h : alloc_layout_slow sys b L = some (q, b1)) :
    ∃ cl data, new_chunk_computed_layout b.cur.layout.size L = some cl ∧
      sys cl = some data ∧
      b1.cur.data = data ∧ b1.cur.layout = cl ∧
      q = down_align (wrapping_sub (data + cl.size - footerSize) L.size) L.align ∧
      b1.cur.ptr = q ∧
      b1.cur.end_of_first_allocation = some (wrapping_add q L.size) ∧
      b1.rest = b.cur :: b.rest := by
  unfold alloc_layout_slow at h
  cases hnc : new_chunk sys (some (b.cur.layout.size, L)) with
  | none =>
    rw [hnc] at h
    cases h
  | some c =>
    rw [hnc] at h
    rw [Option.some.injEq, Prod.mk.injEq] at h
    obtain ⟨hq, hb1⟩ := h
    simp only [new_chunk] at hnc
    cases hcl : new_chunk_computed_layout b.cur.layout.size L with
    | none =>
      rw [hcl] at hnc
      cases hnc
    | some cl =>
      rw [hcl] at hnc
      simp only [] at hnc
      cases hsys : sys cl with
      | none =>
        rw [hsys] at hnc
        cases hnc
      | some data =>
        rw [hsys] at hnc
        injection hnc with hnc
        subst hb1
        refine ⟨cl, data, rfl, hsys, ?_, ?_, ?_, ?_, ?_, rfl⟩
        · show c.data = data
          rw [← hnc]
        · show c.layout = cl
          rw [← hnc]
        · rw [← hq]
          have hptr : c.ptr = data + cl.size - footerSize := by rw [← hnc]
          rw [hptr]
        · show down_align (wrapping_sub c.ptr L.size) L.align = q
          exact hq
        · show some (wrapping_add (down_align (wrapping_sub c.ptr L.size) L.align) L.size) = some (wrapping_add q L.size)
          rw [hq]

/-- C3: after the slow path installs a freshly sized chunk for the triggering
layout `L` (from a well-behaved system allocator), repeating the bump
arithmetic in that chunk succeeds: the unchecked subtraction
`footer_address - L.size` cannot underflow, and after masking down to
`L.align` the pointer is still at or above the chunk base, so the pointer
stored as the new cursor and returned lies within `[base, footer_start]`. -/
theorem slow_path_arith_C3 (sys : SysAlloc) (b : Bump) (L : Layout) (k : Nat)
    (q : Nat) (b1 : Bump)
    (hsys : ∀ l a, sys l = some a → 0 < a ∧ a % l.align = 0 ∧ a + l.size ≤ USIZE)
    (hL : L.align = 2 ^ k) (hk : k ≤ 64) (hLs : L.size + footerSize < USIZE)
    (hslow : alloc_layout_slow sys b L = some (q, b1)) :
    L.size ≤ ChunkFooter.addr b1.cur ∧
    b1.cur.data ≤ q ∧ q + L.size ≤ ChunkFooter.addr b1.cur ∧
    b1.cur.ptr = q := by
  obtain ⟨cl, data, hcl, hsc, hdata, hlay, hq, hptr, _, _⟩ :=
    slow_decomp sys b L q b1 hslow
  obtain ⟨hpos, halign, hbound⟩ := hsys cl data hsc
  rw [new_chunk_computed_eq b.cur.layout.size L hLs] at hcl
  cases hr : round_up_to (max (2 * b.cur.layout.size) (L.size + footerSize)) footerAlign with
  | none =>
    rw [hr] at hcl
    cases hcl
  | some s =>
    rw [hr, Option.map_some'] at hcl
    injection hcl with hcl
    obtain ⟨hrle, hrlt, _⟩ := round_up_to_footerAlign_spec _ _ hr
    have hsge : L.size + footerSize ≤ s := le_trans (le_max_right _ _) hrle
    have hclsize : cl.size = s := by rw [← hcl]
    have hclalign : cl.align = max footerAlign L.align := by rw [← hcl]
    have hfs : 0 < footerSize := by norm_num [footerSize]
    -- the footer address of the fresh chunk
    have haddr : ChunkFooter.addr b1.cur = data + cl.size - footerSize := by
      unfold ChunkFooter.addr
      rw [hdata, hlay]
    have hfa_ge : data + L.size + footerSize ≤ data + cl.size := by omega
    have hfa_lt : data + cl.size - footerSize < USIZE := by omega
    have hsub_ok : L.size ≤ data + cl.size - footerSize := by omega
    have hwsub : wrapping_sub (data + cl.size - footerSize) L.size
        = data + cl.size - footerSize - L.size :=
      wrapping_sub_eq _ _ hsub_ok hfa_lt
    have hp1_lt : data + cl.size - footerSize - L.size < USIZE := by omega
    have hdvd : 2 ^ k ∣ data := by
      have h1 : cl.align ∣ data := Nat.dvd_of_mod_eq_zero halign
      have h2 : 2 ^ k ∣ cl.align := by
        rw [hclalign, hL]
        exact two_pow_dvd_max_footerAlign k
      exact dvd_trans h2 h1
    have hdata_mod : data % 2 ^ k = 0 := Nat.mod_eq_zero_of_dvd hdvd
    have hp1_ge : data ≤ data + cl.size - footerSize - L.size := by omega
    have hqval : q = down_align (data + cl.size - footerSize - L.size) (2 ^ k) := by
      rw [hq, hwsub, hL]
    have hq_ge : data ≤ q := by
      rw [hqval]
      exact le_down_align k _ data hk hp1_lt hdata_mod hp1_ge
    have hq_le : q ≤ data + cl.size - footerSize - L.size := by
      rw [hqval]
      exact down_align_le _ _
    refine ⟨?_, ?_, ?_, hptr⟩
    · rw [haddr]
      omega
    · rw [hdata]
      exact hq_ge
    · rw [haddr]
      omega

/-- Witness for C3: the concrete slow-path allocation of layout (100, 8) on a
concrete arena under the concrete well-behaved allocator. -/
theorem slow_path_arith_C3_witness :
    (alloc_layout_slow sysW bW ⟨100, 8⟩ = some (281474976711496, bSlowW)) ∧
    (100 ≤ ChunkFooter.addr bSlowW.cur ∧
     bSlowW.cur.data ≤ 281474976711496 ∧
     281474976711496 + 100 ≤ ChunkFooter.addr bSlowW.cur ∧
     bSlowW.cur.ptr = 281474976711496) :=
  ⟨by decide,
   slow_path_arith_C3 sysW bW ⟨100, 8⟩ 3 281474976711496 bSlowW sysW_good
     (by decide) (by decide) (by decide) (by decide)⟩

/-- C4: for every `deallocate(ptr, layout)` call through the allocator
adapter: if `ptr` equals the current chunk cursor (it is the tail allocation),
the cursor is raised by exactly `layout.size`; otherwise the call changes no
arena state at all.  In neither case is any chunk released or any other footer
field modified. -/
theorem dealloc_spec_C4 (b : Bump) (p : Nat) (l : Layout)
    (hno : p + l.size < USIZE) :
    (b.cur.ptr = p →
      (dealloc b p l).cur.ptr = p + l.size ∧
      (dealloc b p l).cur.data = b.cur.data ∧
      (dealloc b p l).cur.layout = b.cur.layout ∧
      (dealloc b p l).cur.end_of_first_allocation = b.cur.end_of_first_allocation ∧
      (dealloc b p l).rest = b.rest) ∧
    (b.cur.ptr ≠ p → dealloc b p l = b) := by
  constructor
  · intro htail
    simp [dealloc, is_last_allocation, htail, wrapping_add_eq p l.size hno]
  · intro hne
    simp [dealloc, is_last_allocation, hne]

/-- Witness for C4: deallocating the concrete tail allocation at 100. -/
theorem dealloc_spec_C4_witness :
    (dealloc bC6 100 ⟨1, 1⟩).cur.ptr = 100 + 1 ∧
    (dealloc bC6 100 ⟨1, 1⟩).cur.data = bC6.cur.data ∧
    (dealloc bC6 100 ⟨1, 1⟩).cur.layout = bC6.cur.layout ∧
    (dealloc bC6 100 ⟨1, 1⟩).cur.end_of_first_allocation = bC6.cur.end_of_first_allocation ∧
    (dealloc bC6 100 ⟨1, 1⟩).rest = bC6.rest :=
  (dealloc_spec_C4 bC6 100 ⟨1, 1⟩ (by decide)).1 (by decide)

/-- C5: for every shrinking reallocation (`new_size < old_size`) of an
allocation `(ptr, old_layout)`: if `ptr` is the tail allocation and
`new_size ≤ old_size / 2`, the cursor is raised by `old_size - new_size`, the
first `new_size` bytes of the original region are moved to the new cursor
position with a non-overlapping copy (the source range ends at or before the
destination range starts), and the new cursor is returned; otherwise the
original pointer is returned and the arena state is unchanged. -/
theorem realloc_shrink_C5 (sys : SysAlloc) (b : Bump) (p : Nat) (l : Layout)
    (ns : Nat) (hshrink : ns < l.size)
    (hno : b.cur.ptr + (l.size - ns) < USIZE) :
    (b.cur.ptr = p → ns ≤ l.size / 2 →
      realloc sys b p l ns =
        some (b.cur.ptr + (l.size - ns),
          ⟨{ b.cur with ptr := b.cur.ptr + (l.size - ns) }, b.rest⟩,
          [MemEffect.copyNonoverlapping p (b.cur.ptr + (l.size - ns)) ns]) ∧
      p + ns ≤ b.cur.ptr + (l.size - ns)) ∧
    (¬(b.cur.ptr = p ∧ ns ≤ l.size / 2) →
      realloc sys b p l ns = some (p, b, [])) := by
  constructor
  · intro htail hworth
    constructor
    · have hno2 : p + (l.size - ns) < USIZE := by omega
      simp [realloc, is_last_allocation, Nat.le_of_lt hshrink, htail, hworth,
        wrapping_add_eq p (l.size - ns) hno2]
    · omega
  · intro hcond
    by_cases h1 : b.cur.ptr = p
    · by_cases h2 : ns ≤ l.size / 2
      · exact absurd ⟨h1, h2⟩ hcond
      · simp [realloc, is_last_allocation, Nat.le_of_lt hshrink, h1, h2]
    · simp [realloc, is_last_allocation, Nat.le_of_lt hshrink, h1]

/-- Witness for C5: shrinking the concrete tail allocation at 100 from 10 to 5
bytes. -/
theorem realloc_shrink_C5_witness :
    (realloc sysNone bC6 100 ⟨10, 1⟩ 5 =
      some (105, ⟨{ bC6.cur with ptr := 105 }, bC6.rest⟩,
        [MemEffect.copyNonoverlapping 100 105 5]) ∧
      100 + 5 ≤ 105) :=
  (realloc_shrink_C5 sysNone bC6 100 ⟨10, 1⟩ 5 (by decide) (by decide)).1
    (by decide) (by decide)

lemma realloc_fallback_shape (sys : SysAlloc) (b : Bump) (p o : Nat)
    (l : Layout) (ns q : Nat) (b1 : Bump) (effs : List MemEffect)
    (h : realloc_fallback sys b p o l ns = some (q, b1, effs)) :
    (b1.rest = b.rest ∧ b1.cur.ptr ≤ b.cur.ptr) ∨ b1.rest = b.cur :: b.rest := by
  unfold realloc_fallback at h
  cases halloc : alloc_layout sys b ⟨ns, l.align⟩ with
  | none =>
    rw [halloc] at h
    cases h
  | some r =>
    obtain ⟨q2, b2⟩ := r
    rw [halloc] at h
    injection h with h
    have hb : b2 = b1 := congrArg (fun t => t.2.1) h
    rw [← hb]
    rcases alloc_shape sys b ⟨ns, l.align⟩ q2 b2 halloc with ⟨h1, h2, _⟩ | ⟨h1, _⟩
    · exact Or.inl ⟨h1, h2⟩
    · exact Or.inr h1

/-- Counterexample to C6 as stated: a non-reset operation (deallocating the
tail allocation of a concrete arena) strictly increases the chunk cursor. -/
theorem cursor_monotonicity_counterexample :
    (Op.deallocOp 100 ⟨1, 1⟩).isReset = false ∧
    (applyOp bC6 (Op.deallocOp 100 ⟨1, 1⟩)).rest = bC6.rest ∧
    bC6.cur.ptr < (applyOp bC6 (Op.deallocOp 100 ⟨1, 1⟩)).cur.ptr := by
  decide

/-- C6 amended: between two consecutive non-reset operations, chunks other
than the current one never change (the slow path only pushes the untouched old
current chunk in front of the unchanged chain), and the current chunk cursor
never increases, except that deallocating the tail allocation raises it by
exactly `layout.size` and a worth-it tail shrink (`new_size ≤ old_size / 2`)
raises it by exactly `old_size - new_size` (both as the wrapping pointer
additions the code performs). -/
theorem cursor_monotonicity_amended_C6 (b : Bump) (op : Op)
    (hop : op.isReset = false) :
    ((applyOp b op).rest = b.rest ∨ (applyOp b op).rest = b.cur :: b.rest) ∧
    ((applyOp b op).rest = b.rest →
      (applyOp b op).cur.ptr ≤ b.cur.ptr ∨
      (∃ p l, op = Op.deallocOp p l ∧ b.cur.ptr = p ∧
        (applyOp b op).cur.ptr = wrapping_add p l.size) ∨
      (∃ sys p l ns, op = Op.reallocOp sys p l ns ∧ ns ≤ l.size ∧
        b.cur.ptr = p ∧ ns ≤ l.size / 2 ∧
        (applyOp b op).cur.ptr = wrapping_add b.cur.ptr (l.size - ns))) := by
  cases op with
  | allocOp sys l =>
    simp only [applyOp]
    cases halloc : alloc_layout sys b l with
    | none => exact ⟨Or.inl rfl, fun _ => Or.inl (le_refl _)⟩
    | some r =>
      obtain ⟨q, b1⟩ := r
      rcases alloc_shape sys b l q b1 halloc with ⟨h1, h2, _⟩ | ⟨h1, _⟩
      · exact ⟨Or.inl h1, fun _ => Or.inl h2⟩
      · refine ⟨Or.inr h1, fun heq => ?_⟩
        rw [h1] at heq
        exact absurd heq (List.cons_ne_self _ _)
  | deallocOp p l =>
    simp only [applyOp]
    unfold dealloc
    by_cases htail : b.cur.ptr = p
    · rw [if_pos (by simp [is_last_allocation, htail])]
      exact ⟨Or.inl rfl, fun _ => Or.inr (Or.inl ⟨p, l, rfl, htail, rfl⟩)⟩
    · rw [if_neg (by simp [is_last_allocation, htail])]
      exact ⟨Or.inl rfl, fun _ => Or.inl (le_refl _)⟩
  | reallocOp sys p l ns =>
    simp only [applyOp]
    unfold realloc
    by_cases hle : ns ≤ l.size
    · rw [if_pos hle]
      by_cases hcond : (is_last_allocation b p && decide (ns ≤ l.size / 2)) = true
      · rw [if_pos hcond]
        have hc : b.cur.ptr = p ∧ ns ≤ l.size / 2 := by
          simpa [is_last_allocation] using hcond
        exact ⟨Or.inl rfl, fun _ => Or.inr (Or.inr ⟨sys, p, l, ns, rfl, hle, hc.1, hc.2, rfl⟩)⟩
      · rw [if_neg hcond]
        exact ⟨Or.inl rfl, fun _ => Or.inl (le_refl _)⟩
    · rw [if_neg hle]
      have hfallback :
          ((match realloc_fallback sys b p l.size l ns with
            | some (_, b1, _) => b1
            | none => b).rest = b.rest ∨
           (match realloc_fallback sys b p l.size l ns with
            | some (_, b1, _) => b1
            | none => b).rest = b.cur :: b.rest) ∧
          ((match realloc_fallback sys b p l.size l ns with
            | some (_, b1, _) => b1
            | none => b).rest = b.rest →
           (match realloc_fallback sys b p l.size l ns with
            | some (_, b1, _) => b1
            | none => b).cur.ptr ≤ b.cur.ptr) := by
        cases hres : realloc_fallback sys b p l.size l ns with
        | none => exact ⟨Or.inl rfl, fun _ => le_refl _⟩
        | some r =>
          obtain ⟨q, b1, effs⟩ := r
          rcases realloc_fallback_shape sys b p l.size l ns q b1 effs hres with ⟨h1, h2⟩ | h1
          · exact ⟨Or.inl h1, fun _ => h2⟩
          · refine ⟨Or.inr h1, fun heq => ?_⟩
            rw [h1] at heq
            exact absurd heq (List.cons_ne_self _ _)
      by_cases htail : is_last_allocation b p = true
      · rw [if_pos htail]
        cases hf : try_alloc_layout_fast b ⟨ns - l.size, l.align⟩ with
        | some r =>
          obtain ⟨q, b1⟩ := r
          obtain ⟨h1, h2, h3, _⟩ := fast_shape b _ q b1 hf
          exact ⟨Or.inl h1, fun _ => Or.inl (show b1.cur.ptr ≤ b.cur.ptr by omega)⟩
        | none =>
          obtain ⟨ha, hb2⟩ := hfallback
          exact ⟨ha, fun heq => Or.inl (hb2 heq)⟩
      · rw [if_neg htail]
        obtain ⟨ha, hb2⟩ := hfallback
        exact ⟨ha, fun heq => Or.inl (hb2 heq)⟩
  | resetOp => cases hop

/-- Witness for the amended C6 at a concrete tail deallocation. -/
theorem cursor_monotonicity_amended_C6_witness :
    ((applyOp bC6 (Op.deallocOp 100 ⟨1, 1⟩)).rest = bC6.rest ∨
     (applyOp bC6 (Op.deallocOp 100 ⟨1, 1⟩)).rest = bC6.cur :: bC6.rest) ∧
    ((applyOp bC6 (Op.deallocOp 100 ⟨1, 1⟩)).rest = bC6.rest →
      (applyOp bC6 (Op.deallocOp 100 ⟨1, 1⟩)).cur.ptr ≤ bC6.cur.ptr ∨
      (∃ p l, Op.deallocOp 100 ⟨1, 1⟩ = Op.deallocOp p l ∧ bC6.cur.ptr = p ∧
        (applyOp bC6 (Op.deallocOp 100 ⟨1, 1⟩)).cur.ptr = wrapping_add p l.size) ∨
      (∃ sys p l ns, Op.deallocOp 100 ⟨1, 1⟩ = Op.reallocOp sys p l ns ∧
        ns ≤ l.size ∧ bC6.cur.ptr = p ∧ ns ≤ l.size / 2 ∧
        (applyOp bC6 (Op.deallocOp 100 ⟨1, 1⟩)).cur.ptr =
          wrapping_add bC6.cur.ptr (l.size - ns))) :=
  cursor_monotonicity_amended_C6 bC6 (Op.deallocOp 100 ⟨1, 1⟩) rfl

/-- Counterexample to C7 as stated: a zero-sized 8-aligned request on a
concrete arena whose cursor is 13 and base is 8 succeeds on the fast path but
consumes five bytes of alignment padding: the distance between the chunk base
and its cursor shrinks from 5 to 0. -/
theorem zero_sized_counterexample :
    (alloc_layout sysNone bC7 ⟨0, 8⟩).map (fun r => r.2.cur.ptr - r.2.cur.data) =
      some 0 ∧
    bC7.cur.ptr - bC7.cur.data = 5 := by
  decide

/-- C7 amended: every zero-sized allocation request (any power-of-two
alignment) whose aligned-down cursor stays at or above the chunk base succeeds
on the fast path and returns a non-null pointer aligned to the requested
alignment, but it consumes exactly the alignment padding: the cursor moves
down by `cursor mod align` (zero exactly when the cursor is already aligned).
When the aligned-down cursor falls below the base the request instead falls
through to the slow path, acquiring a new chunk. -/
theorem zero_sized_amended_C7 (sys : SysAlloc) (b : Bump) (k : Nat)
    (hk : k ≤ 64) (hdata : 0 < b.cur.data) (hptr : b.cur.ptr < USIZE) :
    (b.cur.data ≤ down_align b.cur.ptr (2 ^ k) →
      ∃ b1, alloc_layout sys b ⟨0, 2 ^ k⟩ =
          some (down_align b.cur.ptr (2 ^ k), b1) ∧
        0 < down_align b.cur.ptr (2 ^ k) ∧
        down_align b.cur.ptr (2 ^ k) % 2 ^ k = 0 ∧
        b1.cur.ptr = b.cur.ptr - b.cur.ptr % 2 ^ k ∧
        b1.cur.data = b.cur.data ∧ b1.rest = b.rest) ∧
    (down_align b.cur.ptr (2 ^ k) < b.cur.data →
      try_alloc_layout_fast b ⟨0, 2 ^ k⟩ = none ∧
      alloc_layout sys b ⟨0, 2 ^ k⟩ = alloc_layout_slow sys b ⟨0, 2 ^ k⟩) := by
  have hcs : checked_sub b.cur.ptr (0 : Nat) = some b.cur.ptr := by
    unfold checked_sub
    simp
  constructor
  · intro hge
    have hfs := fast_succ b ⟨0, 2 ^ k⟩ b.cur.ptr hcs hge
    refine ⟨_, alloc_layout_eq_fast sys b _ _ hfs, by omega,
      down_align_mod_self k _ hk hptr, ?_, fast_updated_footer_data _ _ _, rfl⟩
    exact (fast_updated_footer_ptr _ _ _).trans (down_align_sub_mod k _ hk hptr)
  · intro hlt
    have hnone := fast_none_of_align b ⟨0, 2 ^ k⟩ b.cur.ptr hcs hlt
    exact ⟨hnone, alloc_layout_eq_slow sys b _ hnone⟩

/-- Witness for the amended C7: a zero-sized 8-aligned request on a concrete
arena whose cursor is already 8-aligned. -/
theorem zero_sized_amended_C7_witness :
    ∃ b1, alloc_layout sysNone bW ⟨0, 2 ^ 3⟩ =
        some (down_align bW.cur.ptr (2 ^ 3), b1) ∧
      0 < down_align bW.cur.ptr (2 ^ 3) ∧
      down_align bW.cur.ptr (2 ^ 3) % 2 ^ 3 = 0 ∧
      b1.cur.ptr = bW.cur.ptr - bW.cur.ptr % 2 ^ 3 ∧
      b1.cur.data = bW.cur.data ∧ b1.rest = bW.rest :=
  (zero_sized_amended_C7 sysNone bW 3 (by decide) (by decide) (by decide)).1
    (by decide)

/-- C8: the `try_alloc_layout` entry point surfaces memory exhaustion (a null
return from the system allocator or chunk-size arithmetic overflow on the slow
path) as an allocator error to the caller instead of aborting, while the
non-try `alloc_layout` entry point invokes the abort hook `oom`; on success
both return the same pointer and state. -/
theorem try_alloc_layout_C8 (sys : SysAlloc) (b : Bump) (l : Layout) :
    (∀ q b1, alloc_layout sys b l = some (q, b1) →
      try_alloc_layout sys b l = Except.ok (q, b1) ∧
      alloc_layout_fatal sys b l = FatalOutcome.ok q b1) ∧
    (alloc_layout sys b l = none →
      try_alloc_layout sys b l = Except.error AllocErr.allocErr ∧
      alloc_layout_fatal sys b l = oom) := by
  constructor
  · intro q b1 h
    unfold try_alloc_layout alloc_layout_fatal
    rw [h]
    exact ⟨rfl, rfl⟩
  · intro h
    unfold try_alloc_layout alloc_layout_fatal
    rw [h]
    exact ⟨rfl, rfl⟩

/-- Witness for C8: a request no chunk can serve under the exhausted system
allocator is an error on the try path and the abort hook on the fatal path. -/
theorem try_alloc_layout_C8_witness :
    try_alloc_layout sysNone bW ⟨1000, 1⟩ = Except.error AllocErr.allocErr ∧
    alloc_layout_fatal sysNone bW ⟨1000, 1⟩ = oom :=
  (try_alloc_layout_C8 sysNone bW ⟨1000, 1⟩).2 (by decide)

lemma chain_ok_cons (c : ChunkFooter) (l : List ChunkFooter) :
    chain_ok (c :: l) =
      ((l.isEmpty || c.end_of_first_allocation.isSome) && chain_ok l) := by
  cases l with
  | nil => simp [chain_ok]
  | cons d t => simp [chain_ok]

lemma chain_ok_update (b b1 : Bump) (h : chain_ok b.chunks = true)
    (hshape : (b1.rest = b.rest ∧
        (b1.cur.end_of_first_allocation = b.cur.end_of_first_allocation ∨
          b1.cur.end_of_first_allocation.isSome = true)) ∨
      (b1.rest = b.cur :: b.rest ∧
        b1.cur.end_of_first_allocation.isSome = true)) :
    chain_ok b1.chunks = true := by
  rw [Bump.chunks, chain_ok_cons] at h
  obtain ⟨hcurv, hrest⟩ := Bool.and_eq_true_iff.mp h
  rcases hshape with ⟨h1, h2⟩ | ⟨h1, h2⟩
  · rw [Bump.chunks, chain_ok_cons, h1, Bool.and_eq_true]
    refine ⟨?_, hrest⟩
    rcases h2 with h3 | h3
    · rw [h3]
      exact hcurv
    · simp [h3]
  · rw [Bump.chunks, chain_ok_cons, h1, Bool.and_eq_true]
    constructor
    · simp [h2]
    · rw [chain_ok_cons, Bool.and_eq_true]
      exact ⟨hcurv, hrest⟩

lemma realloc_state_shape (sys : SysAlloc) (b : Bump) (p : Nat) (l : Layout)
    (ns q : Nat) (b1 : Bump) (effs : List MemEffect)
    (h : realloc sys b p l ns = some (q, b1, effs)) :
    (b1.rest = b.rest ∧
      (b1.cur.end_of_first_allocation = b.cur.end_of_first_allocation ∨
        b1.cur.end_of_first_allocation.isSome = true)) ∨
    (b1.rest = b.cur :: b.rest ∧
      b1.cur.end_of_first_allocation.isSome = true) := by
  have hfb : ∀ q2 b2 effs2,
      realloc_fallback sys b p l.size l ns = some (q2, b2, effs2) →
      (b2.rest = b.rest ∧
        (b2.cur.end_of_first_allocation = b.cur.end_of_first_allocation ∨
          b2.cur.end_of_first_allocation.isSome = true)) ∨
      (b2.rest = b.cur :: b.rest ∧
        b2.cur.end_of_first_allocation.isSome = true) := by
    intro q2 b2 effs2 hh
    unfold realloc_fallback at hh
    cases halloc : alloc_layout sys b ⟨ns, l.align⟩ with
    | none =>
      rw [halloc] at hh
      cases hh
    | some r =>
      obtain ⟨q3, b3⟩ := r
      rw [halloc] at hh
      injection hh with hh
      have hb : b3 = b2 := congrArg (fun t => t.2.1) hh
      rw [← hb]
      rcases alloc_shape sys b ⟨ns, l.align⟩ q3 b3 halloc with ⟨h1, _, h3⟩ | ⟨h1, h3⟩
      · exact Or.inl ⟨h1, h3⟩
      · exact Or.inr ⟨h1, h3⟩
  unfold realloc at h
  by_cases hle : ns ≤ l.size
  · rw [if_pos hle] at h
    by_cases hcond : (is_last_allocation b p && decide (ns ≤ l.size / 2)) = true
    · rw [if_pos hcond] at h
      injection h with h
      have hb : (⟨{ b.cur with ptr := wrapping_add b.cur.ptr (l.size - ns) }, b.rest⟩ : Bump) = b1 :=
        congrArg (fun t => t.2.1) h
      rw [← hb]
      exact Or.inl ⟨rfl, Or.inl rfl⟩
    · rw [if_neg hcond] at h
      injection h with h
      have hb : b = b1 := congrArg (fun t => t.2.1) h
      rw [← hb]
      exact Or.inl ⟨rfl, Or.inl rfl⟩
  · rw [if_neg hle] at h
    by_cases htail : is_last_allocation b p = true
    · rw [if_pos htail] at h
      cases hf : try_alloc_layout_fast b ⟨ns - l.size, l.align⟩ with
      | some r =>
        obtain ⟨q3, b3⟩ := r
        rw [hf] at h
        injection h with h
        have hb : b3 = b1 := congrArg (fun t => t.2.1) h
        rw [← hb]
        obtain ⟨h1, _, _, _, _, h3⟩ := fast_shape b _ q3 b3 hf
        exact Or.inl ⟨h1, h3⟩
      | none =>
        rw [hf] at h
        exact hfb q b1 effs h
    · rw [if_neg htail] at h
      exact hfb q b1 effs h

lemma chain_ok_apply (b : Bump) (op : Op) (h : chain_ok b.chunks = true) :
    chain_ok (applyOp b op).chunks = true := by
  cases op with
  | allocOp sys l =>
    simp only [applyOp]
    cases halloc : alloc_layout sys b l with
    | none => exact h
    | some r =>
      obtain ⟨q, b1⟩ := r
      apply chain_ok_update b b1 h
      rcases alloc_shape sys b l q b1 halloc with ⟨h1, _, h3⟩ | ⟨h1, h3⟩
      · exact Or.inl ⟨h1, h3⟩
      · exact Or.inr ⟨h1, h3⟩
  | deallocOp p l =>
    simp only [applyOp]
    unfold dealloc
    split
    · apply chain_ok_update b _ h
      exact Or.inl ⟨rfl, Or.inl rfl⟩
    · exact h
  | reallocOp sys p l ns =>
    simp only [applyOp]
    cases hre : realloc sys b p l ns with
    | none => exact h
    | some r =>
      obtain ⟨q, b1, effs⟩ := r
      exact chain_ok_update b b1 h (realloc_state_shape sys b p l ns q b1 effs hre)
  | resetOp =>
    simp only [applyOp]
    rfl

lemma chain_ok_run (ops : List Op) (b : Bump) (h : chain_ok b.chunks = true) :
    chain_ok (run b ops).chunks = true := by
  induction ops generalizing b with
  | nil => exact h
  | cons op rest ih => exact ih _ (chain_ok_apply b op h)

/-- C9: in every arena state reachable by any sequence of alloc, dealloc,
realloc and reset operations from `new` or `with_capacity`, any chunk whose
`end_of_first_allocation` field is unset has no predecessor link:
equivalently, every chunk except the last of the `prev` chain has
`end_of_first_allocation` set (the invariant `ChunkIter::next` relies on). -/
theorem chain_invariant_C9 (sys : SysAlloc) (n : Nat) (b0 : Bump)
    (ops : List Op)
    (hinit : Bump.new sys = some b0 ∨ Bump.with_capacity sys n = some b0) :
    chain_ok (run b0 ops).chunks = true := by
  have h0 : b0.rest = [] := by
    rcases hinit with hi | hi
    · unfold Bump.new at hi
      cases hc : new_chunk sys none with
      | none =>
        rw [hc] at hi
        cases hi
      | some c =>
        rw [hc, Option.map_some'] at hi
        injection hi with hi
        rw [← hi]
    · unfold Bump.with_capacity at hi
      cases hc : new_chunk sys (some (DEFAULT_CHUNK_SIZE_WITH_FOOTER, ⟨n, 1⟩)) with
      | none =>
        rw [hc] at hi
        cases hi
      | some c =>
        rw [hc, Option.map_some'] at hi
        injection hi with hi
        rw [← hi]
  apply chain_ok_run
  rw [Bump.chunks, h0]
  rfl

/-- Witness for C9: a concrete arena from `Bump::new` and a concrete operation
sequence including a slow-path allocation, a deallocation and a reset. -/
theorem chain_invariant_C9_witness :
    chain_ok (run bNewW
      [Op.allocOp sysW ⟨600, 1⟩, Op.deallocOp 0 ⟨1, 1⟩, Op.resetOp]).chunks = true :=
  chain_invariant_C9 sysW 0 bNewW
    [Op.allocOp sysW ⟨600, 1⟩, Op.deallocOp 0 ⟨1, 1⟩, Op.resetOp]
    (Or.inl (by decide))

lemma allocMany_fast (sys : SysAlloc) (szs : List Nat) (b : Bump)
    (hrest : b.rest = []) (hsum : szs.sum + b.cur.data ≤ b.cur.ptr)
    (hptr : b.cur.ptr < USIZE) :
    ∃ b1, allocMany sys b szs = some b1 ∧ b1.rest = [] ∧
      b1.cur.data = b.cur.data ∧ b1.cur.layout = b.cur.layout ∧
      b1.cur.ptr = b.cur.ptr - szs.sum := by
  induction szs generalizing b with
  | nil => exact ⟨b, rfl, hrest, rfl, rfl, by simp⟩
  | cons sz rest ih =>
    have hsums : sz + rest.sum + b.cur.data ≤ b.cur.ptr := by
      have := List.sum_cons (a := sz) (l := rest)
      omega
    have hcs : checked_sub b.cur.ptr sz = some (b.cur.ptr - sz) := by
      unfold checked_sub
      rw [if_pos (by omega)]
    have hda : down_align (b.cur.ptr - sz) 1 = b.cur.ptr - sz :=
      down_align_one _ (by omega)
    have hge : b.cur.data ≤ down_align (b.cur.ptr - sz) 1 := by
      rw [hda]
      omega
    have hfs := fast_succ b ⟨sz, 1⟩ (b.cur.ptr - sz) hcs hge
    have hal := alloc_layout_eq_fast sys b ⟨sz, 1⟩ _ hfs
    have hb2rest : (⟨fast_updated_footer b.cur (down_align (b.cur.ptr - sz) 1) ⟨sz, 1⟩, b.rest⟩ : Bump).rest = [] := hrest
    have hb2data : (⟨fast_updated_footer b.cur (down_align (b.cur.ptr - sz) 1) ⟨sz, 1⟩, b.rest⟩ : Bump).cur.data = b.cur.data :=
      fast_updated_footer_data _ _ _
    have hb2lay : (⟨fast_updated_footer b.cur (down_align (b.cur.ptr - sz) 1) ⟨sz, 1⟩, b.rest⟩ : Bump).cur.layout = b.cur.layout :=
      fast_updated_footer_layout _ _ _
    have hb2ptr : (⟨fast_updated_footer b.cur (down_align (b.cur.ptr - sz) 1) ⟨sz, 1⟩, b.rest⟩ : Bump).cur.ptr = b.cur.ptr - sz :=
      (fast_updated_footer_ptr _ _ _).trans hda
    obtain ⟨b1, h1, h2, h3, h4, h5⟩ :=
      ih ⟨fast_updated_footer b.cur (down_align (b.cur.ptr - sz) 1) ⟨sz, 1⟩, b.rest⟩
        hb2rest (by rw [hb2data, hb2ptr]; omega) (by rw [hb2ptr]; omega)
    refine ⟨b1, ?_, h2, ?_, ?_, ?_⟩
    · simp only [allocMany, hal]
      exact h1
    · rw [h3, hb2data]
    · rw [h4, hb2lay]
    · rw [h5, hb2ptr]
      have := List.sum_cons (a := sz) (l := rest)
      omega

/-- C10: for every capacity `n` for which the size arithmetic does not
overflow, `Bump::with_capacity n` creates an arena with a single chunk whose
usable region below the footer is at least `n` bytes, so any sequence of
allocations totalling at most `n` bytes with alignment 1 is served entirely
from that first chunk without acquiring a new one. -/
theorem with_capacity_C10 (sys : SysAlloc) (n : Nat) (b : Bump)
    (szs : List Nat)
    (hsys : ∀ l a, sys l = some a → 0 < a ∧ a % l.align = 0 ∧ a + l.size ≤ USIZE)
    (hn : n + footerSize < USIZE)
    (hb : Bump.with_capacity sys n = some b) (hsum : szs.sum ≤ n) :
    n + footerSize ≤ b.cur.layout.size ∧
    ∃ b1, allocMany sys b szs = some b1 ∧ b1.rest = [] ∧
      b1.cur.data = b.cur.data ∧ b1.cur.layout = b.cur.layout ∧
      b1.cur.ptr = b.cur.ptr - szs.sum := by
  unfold Bump.with_capacity at hb
  cases hc : new_chunk sys (some (DEFAULT_CHUNK_SIZE_WITH_FOOTER, ⟨n, 1⟩)) with
  | none =>
    rw [hc] at hb
    cases hb
  | some c =>
    rw [hc, Option.map_some'] at hb
    injection hb with hb
    simp only [new_chunk] at hc
    cases hcl : new_chunk_computed_layout DEFAULT_CHUNK_SIZE_WITH_FOOTER ⟨n, 1⟩ with
    | none =>
      rw [hcl] at hc
      cases hc
    | some cl =>
      rw [hcl] at hc
      simp only [] at hc
      cases hsc : sys cl with
      | none =>
        rw [hsc] at hc
        cases hc
      | some data =>
        rw [hsc] at hc
        injection hc with hc
        obtain ⟨hpos, _, hbound⟩ := hsys cl data hsc
        rw [new_chunk_computed_eq DEFAULT_CHUNK_SIZE_WITH_FOOTER ⟨n, 1⟩ hn] at hcl
        cases hr : round_up_to (max (2 * DEFAULT_CHUNK_SIZE_WITH_FOOTER) ((⟨n, 1⟩ : Layout).size + footerSize)) footerAlign with
        | none =>
          rw [hr] at hcl
          cases hcl
        | some sv =>
          rw [hr, Option.map_some'] at hcl
          injection hcl with hcl
          obtain ⟨hrle, _, _⟩ := round_up_to_footerAlign_spec _ _ hr
          have hclsize : cl.size = sv := by rw [← hcl]
          have hsize_ge : n + footerSize ≤ cl.size := by
            rw [hclsize]
            exact le_trans (le_max_right _ _) hrle
          have hfsz : 0 < footerSize := by norm_num [footerSize]
          have hcd : c.data = data := by rw [← hc]
          have hcl2 : c.layout = cl := by rw [← hc]
          have hcp : c.ptr = data + cl.size - footerSize := by rw [← hc]
          have hbc : b.cur = c := by rw [← hb]
          have hbrest : b.rest = [] := by rw [← hb]
          constructor
          · rw [hbc, hcl2]
            exact hsize_ge
          · apply allocMany_fast sys szs b hbrest
            · rw [hbc, hcd, hcp]
              omega
            · rw [hbc, hcp]
              omega

/-- Witness for C10: capacity 100 under the concrete allocator, with three
alignment-1 allocations totalling 60 bytes, all served from the single
chunk. -/
theorem with_capacity_C10_witness :
    100 + footerSize ≤ bCapW.cur.layout.size ∧
    ∃ b1, allocMany sysW bCapW [10, 20, 30] = some b1 ∧ b1.rest = [] ∧
      b1.cur.data = bCapW.cur.data ∧ b1.cur.layout = bCapW.cur.layout ∧
      b1.cur.ptr = bCapW.cur.ptr - ([10, 20, 30] : List Nat).sum :=
  with_capacity_C10 sysW 100 bCapW [10, 20, 30] sysW_good (by decide)
    (by decide) (by decide)

end Bumpalo
